import Mathlib

/-!
Verification of the old Rust M:N task runtime (rust_scheduler.cpp,
rust_task_thread.cpp, rust_port_selector.cpp, the native builtins and the
uvtmp event-loop shim) against its natural-language specification.

Each C++ function the claims touch is shallowly embedded as a Lean
function over an explicit state record; machine integers are modelled as
Nat (with preconditions ruling out wraparound where the runtime itself
guarantees it), fallible code as Option/Except, and runtime assertions
(the I/A macros) as Option-valued failure.
-/

namespace RustRt

/-! ## Scheduler: round-robin task placement (rust_scheduler.cpp) -/

/-- State of a rust_scheduler relevant to task creation: the fields
`live_tasks`, `cur_thread` and `num_threads` that `create_task` touches
under the scheduler lock. -/
structure Sched where
  liveTasks : Nat
  curThread : Nat
  numThreads : Nat
  deriving Repr, DecidableEq

/-- Embedding of rust_scheduler::create_task (rust_scheduler.cpp:83-95):
under the lock, `live_tasks++`, `thread_no = cur_thread++`, and
`cur_thread` wraps to 0 once it reaches `num_threads`.  Returns the new
state and the chosen worker index. -/
def sched_create_task (s : Sched) : Sched × Nat :=
  let thread_no := s.curThread
  let cur := s.curThread + 1
  let cur := if s.numThreads ≤ cur then 0 else cur
  ({ s with liveTasks := s.liveTasks + 1, curThread := cur }, thread_no)

/-- Spawning `n` tasks back-to-back: returns the final scheduler state and
the list of worker indices chosen, in order. -/
def spawnMany : Sched → Nat → Sched × List Nat
  | s, 0 => (s, [])
  | s, n + 1 =>
    let (s1, t) := sched_create_task s
    let (s2, ts) := spawnMany s1 n
    (s2, t :: ts)

/-! ## Scheduler: worker release and deregistration (rust_scheduler.cpp) -/

/-- State of a rust_scheduler relevant to worker shutdown: the
`live_threads` counter decremented by `release_task_thread`. -/
structure SchedThreads where
  liveThreads : Nat
  deriving Repr, DecidableEq

/-- Embedding of rust_scheduler::release_task_thread
(rust_scheduler.cpp:128-138): under the lock `new_live_threads =
--live_threads`; afterwards, when the new value is 0, the scheduler id is
released from the kernel.  The returned Bool records whether
`kernel->release_scheduler_id(id)` was called. -/
def release_task_thread (s : SchedThreads) : SchedThreads × Bool :=
  let newLive := s.liveThreads - 1
  ({ liveThreads := newLive }, newLive = 0)

/-- Applying `k` worker releases in sequence, counting how many of them
called `release_scheduler_id`. -/
def releaseWorkers : SchedThreads → Nat → SchedThreads × Nat
  | s, 0 => (s, 0)
  | s, k + 1 =>
    let r := release_task_thread s
    let rest := releaseWorkers r.1 k
    (rest.1, (if r.2 then 1 else 0) + rest.2)

/-- Embedding of rust_scheduler::release_task (rust_scheduler.cpp:97-111):
decrements `live_tasks`; when it reaches 0 the scheduler calls `exit()`.
It never touches `live_threads` and never deregisters the scheduler. -/
def sched_release_task (s : Sched) : Sched × Bool :=
  let lt := s.liveTasks - 1
  ({ s with liveTasks := lt }, lt = 0)

/-! ## Kernel: scheduler creation (rust_new_sched, rust_builtin.cpp) -/

/-- Kernel state relevant to scheduler creation: the monotonic scheduler
id allocator and the registry mapping scheduler id to its worker count. -/
structure Kernel where
  nextSchedId : Nat
  scheds : List (Nat × Nat)
  deriving Repr, DecidableEq

/-- Modelled from the spec: rust_kernel::create_scheduler is not among the
source files; per the spec it allocates an id, constructs a scheduler with
`num_threads` workers, starts them, registers the scheduler, and returns
the id. -/
def create_scheduler (k : Kernel) (numThreads : Nat) : Kernel × Nat :=
  let id := k.nextSchedId
  ({ nextSchedId := id + 1, scheds := (id, numThreads) :: k.scheds }, id)

/-- Embedding of rust_new_sched (native builtins, lines 440-446): asserts
`threads > 0` with message "Can't create a scheduler with no threads,
silly!" (modelled as an error result), then delegates to
`kernel->create_scheduler(threads)`. -/
def rust_new_sched (k : Kernel) (threads : Nat) : Except String (Kernel × Nat) :=
  if threads > 0 then
    Except.ok (create_scheduler k threads)
  else
    Except.error "Cannot create a scheduler with no threads"

/-! ## Event-loop collaborator: completion tags (rust_uvtmp.cpp) -/

/-- Message tag constants from the uvtmp shim (lines 18-23 of the file). -/
def whatever_tag : Int := 0

/-- Tag for connection-completion messages. -/
def connected_tag : Int := 1

/-- Tag for write-completion messages. -/
def wrote_tag : Int := 2

/-- Tag for read-completion messages. -/
def read_tag : Int := 3

/-- Tag for timer-fired messages. -/
def timer_tag : Int := 4

/-- Tag for loop-exit messages. -/
def exit_tag : Int := 5

/-- An iomsg as delivered on the requesting channel: its tag and the
connect_data payload identifier. -/
structure IoMsg where
  tag : Int
  val : Nat
  deriving Repr, DecidableEq

/-- Embedding of rust_uvtmp_thread::on_write (lines 355-366 of the uvtmp
file): builds the completion message with `msg.tag = timer_tag` and
`msg.val.wrote_val = wd->cd`, then sends it on the request channel.
The argument stands for `wd->cd`. -/
def on_write (cd : Nat) : IoMsg :=
  { tag := timer_tag, val := cd }

/-! ## Blocking receive: port_recv (native builtins) -/

/-- State of a rust_port as port_recv sees it: the buffered messages. -/
structure RPort where
  buffer : List Nat
  deriving Repr, DecidableEq

/-- State of the receiving rust_task as port_recv sees it: the kill flag,
the rendezvous slot, and the condition (with reason) it is blocked on. -/
structure RTask where
  killed : Bool
  rendezvousPtr : Option Nat
  blockedWithReason : Option String
  deriving Repr, DecidableEq

/-- Modelled from the spec: rust_port::receive (rust_port.cpp is not
among the source files); per the spec it pops one message into dst and
returns true when the buffer is non-empty, else returns false without
blocking. -/
def port_receive (p : RPort) : Option (RPort × Nat) :=
  match p.buffer with
  | [] => none
  | m :: rest => some (⟨rest⟩, m)

/-- Result of a port_recv call: the port and task afterwards, the two
output flags, and the message written through dptr when one was popped.
The scoped port lock is released on every path out of the source
function. -/
structure PortRecvOut where
  port : RPort
  task : RTask
  yieldFlag : Bool
  killedFlag : Bool
  received : Option Nat
  deriving Repr, DecidableEq

/-- Embedding of port_recv (native builtins, lines 572-606): clears both
output flags, takes the port lock, tries receive (returning on success);
if the task is killed it sets only the killed flag and returns; otherwise
it stores dptr in the rendezvous slot, blocks the task on the port with
reason "waiting for rendezvous data", and sets the yield flag after the
lock is released.  The Nat argument dptr stands for the destination
address. -/
def port_recv (task : RTask) (port : RPort) (dptr : Nat) : PortRecvOut :=
  match port_receive port with
  | some (p2, m) =>
    { port := p2, task := task, yieldFlag := false, killedFlag := false,
      received := some m }
  | none =>
    if task.killed then
      { port := port, task := task, yieldFlag := false, killedFlag := true,
        received := none }
    else
      { port := port,
        task := { task with
                  rendezvousPtr := some dptr,
                  blockedWithReason := some "waiting for rendezvous data" },
        yieldFlag := true, killedFlag := false, received := none }

/-! ## Channel send: chan_id_send (native builtins) -/

/-- Association-list lookup by id, first match wins. -/
def findAssoc {α : Type} : List (Nat × α) → Nat → Option α
  | [], _ => none
  | (key, v) :: rest, k => if key = k then some v else findAssoc rest k

/-- Association-list update of the first entry with the given id; a
missing id leaves the list unchanged. -/
def updAssoc {α : Type} : List (Nat × α) → Nat → α → List (Nat × α)
  | [], _, _ => []
  | (key, v) :: rest, k, nv =>
    if key = k then (key, nv) :: rest else (key, v) :: updAssoc rest k nv

/-- A rust_port as chan_id_send sees it: refcount and buffer. -/
structure CPort where
  refs : Nat
  buffer : List Nat
  deriving Repr, DecidableEq

/-- A rust_task as chan_id_send sees it: refcount and owned-port table. -/
structure CTask where
  refs : Nat
  ports : List (Nat × CPort)
  deriving Repr, DecidableEq

/-- The kernel task table as chan_id_send sees it. -/
structure CKernel where
  tasks : List (Nat × CTask)
  deriving Repr, DecidableEq

/-- Modelled from the spec: rust_kernel::get_task_by_id (rust_kernel.cpp
is not among the source files); per the spec it returns the task on a hit
and increments its refcount before use, and returns nothing on a miss. -/
def get_task_by_id (k : CKernel) (tid : Nat) : Option (CKernel × CTask) :=
  match findAssoc k.tasks tid with
  | none => none
  | some t =>
    let t1 := { t with refs := t.refs + 1 }
    some (⟨updAssoc k.tasks tid t1⟩, t1)

/-- Modelled from the spec: rust_task::get_port_by_id (rust_task.cpp is
not among the source files); per the port invariant each successful
lookup increments the port refcount before use. -/
def get_port_by_id (t : CTask) (pid : Nat) : Option (CTask × CPort) :=
  match findAssoc t.ports pid with
  | none => none
  | some p =>
    let p1 := { p with refs := p.refs + 1 }
    some ({ t with ports := updAssoc t.ports pid p1 }, p1)

/-- Modelled from the spec: rust_port::send in the plain buffered case
appends one unit to the buffer (the rendezvous and selector paths are
modelled with the selector claims). -/
def port_send (p : CPort) (sptr : Nat) : CPort :=
  { p with buffer := p.buffer ++ [sptr] }

/-- Dropping the refcount taken by a task lookup. -/
def task_deref (t : CTask) : CTask := { t with refs := t.refs - 1 }

/-- Dropping the refcount taken by a port lookup. -/
def cport_deref (p : CPort) : CPort := { p with refs := p.refs - 1 }

/-- Embedding of chan_id_send (native builtins, lines 545-563): look up
the target task (miss: return false), then the target port on it (miss:
deref the task, return false); on a double hit, send on the port, deref
the port under the task lock, deref the task, and return true. -/
def chan_id_send (k : CKernel) (ttid tpid sptr : Nat) : CKernel × Bool :=
  match get_task_by_id k ttid with
  | none => (k, false)
  | some (k1, t) =>
    match get_port_by_id t tpid with
    | none => (⟨updAssoc k1.tasks ttid (task_deref t)⟩, false)
    | some (t1, p) =>
      let p3 := cport_deref (port_send p sptr)
      let t3 := task_deref { t1 with ports := updAssoc t1.ports tpid p3 }
      (⟨updAssoc k1.tasks ttid t3⟩, true)

/-! ## Worker: kill_all_tasks (rust_task_thread.cpp) -/

/-- A rust_task as kill_all_tasks sees it: its id and the two flags the
operation touches. -/
structure KTask where
  tid : Nat
  supervised : Bool
  killed : Bool
  deriving Repr, DecidableEq

/-- The four task lists of a worker (rust_task_thread). -/
structure Worker10 where
  newborn : List KTask
  running : List KTask
  blocked : List KTask
  dead : List KTask
  deriving Repr, DecidableEq

/-- All tasks of the worker across the four lists. -/
def allTasks (w : Worker10) : List KTask :=
  w.newborn ++ w.running ++ w.blocked ++ w.dead

/-- Ids of a list of tasks. -/
def tids (l : List KTask) : List Nat := l.map KTask.tid

/-- An observable call made while killing: unsupervise or kill on a task
id. -/
inductive KillAct where
  | unsup (tid : Nat)
  | kill (tid : Nat)
  deriving Repr, DecidableEq

/-- Clearing the supervised flag of one task record. -/
def unsupervise_task (t : KTask) : KTask := { t with supervised := false }

/-- Setting the killed flag of one task record. -/
def kill_flag (t : KTask) : KTask := { t with killed := true }

/-- Updating the task with the given id, wherever it lives. -/
def updIn (l : List KTask) (tid : Nat) (f : KTask → KTask) : List KTask :=
  l.map fun t => if t.tid = tid then f t else t

/-- Modelled from the spec: rust_task::unsupervise (rust_task.cpp is not
among the source files) clears the supervised flag, preventing
propagation of failure to the parent. -/
def task_unsupervise (w : Worker10) (tid : Nat) : Worker10 :=
  ⟨updIn w.newborn tid unsupervise_task, updIn w.running tid unsupervise_task,
   updIn w.blocked tid unsupervise_task, updIn w.dead tid unsupervise_task⟩

/-- Modelled from the spec: rust_task::kill (rust_task.cpp is not among
the source files) sets the killed flag and, when the task is blocked,
wakes it so it observes the flag (blocked → running). -/
def task_kill (w : Worker10) (tid : Nat) : Worker10 :=
  let w1 : Worker10 :=
    ⟨updIn w.newborn tid kill_flag, updIn w.running tid kill_flag,
     updIn w.blocked tid kill_flag, updIn w.dead tid kill_flag⟩
  ⟨w1.newborn,
   w1.running ++ w1.blocked.filter (fun t => t.tid == tid),
   w1.blocked.filter (fun t => t.tid != tid),
   w1.dead⟩

/-- Processing loop of kill_all_tasks: pop each snapshotted task and call
unsupervise() then kill() on it, recording the calls. -/
def killAllGo : Worker10 → List KTask → Worker10 × List KillAct
  | w, [] => (w, [])
  | w, t :: rest =>
    let w2 := task_kill (task_unsupervise w t.tid) t.tid
    let r := killAllGo w2 rest
    (r.1, KillAct.unsup t.tid :: KillAct.kill t.tid :: r.2)

/-- Embedding of rust_task_thread::kill_all_tasks (lines 96-120): under
the lock, snapshot the running then the blocked list into a vector; then,
lock released, repeatedly pop the back of the vector and call
unsupervise() followed by kill() on that task. -/
def kill_all_tasks (w : Worker10) : Worker10 × List KillAct :=
  killAllGo w (w.running ++ w.blocked).reverse

/-- Failure of a task propagates to its parent only while it is
supervised (spec error taxonomy, TaskFailure). -/
def propagatesFailure (t : KTask) : Prop := t.killed = true ∧ t.supervised = true

/-! ## Port selector: select and msg_sent_on (rust_port_selector.cpp) -/

/-- A port as the selector sees it: its identity and current buffer
size. -/
structure SelPort where
  pid : Nat
  bufSize : Nat
  deriving Repr, DecidableEq

/-- Default used for out-of-range indexing (never reached under the
theorems' bounds). -/
def dummyPort : SelPort := ⟨0, 0⟩

/-- Combined selector/task/destination state for the rendezvous protocol:
the published port set (this->ports with n_ports = length, none for
NULL), whether the task is blocked on this selector, whether
task->rendezvous_ptr is set (points at *dptr), the blocking reason, and
the content of the destination cell *dptr (the selected port). -/
structure SelState where
  selPorts : Option (List Nat)
  blockedOnSel : Bool
  rendezvousSet : Bool
  blockReason : Option String
  dptrCell : Option Nat
  deriving Repr, DecidableEq

/-- The scanning loop of rust_port_selector::select (lines 32-46): for
each i from the current position while fuel remains, take the lock of
port k = (i + j) mod n (recording k), and stop with that port if its
buffer is non-empty.  Returns the lock order and the found index. -/
def scanFrom (ports : List SelPort) (j : Nat) : Nat → Nat → List Nat × Option Nat
  | _, 0 => ([], none)
  | i, fuel + 1 =>
    if (ports.getD ((i + j) % ports.length) dummyPort).bufSize > 0 then
      ([(i + j) % ports.length], some ((i + j) % ports.length))
    else
      ((i + j) % ports.length :: (scanFrom ports j (i + 1) fuel).1,
        (scanFrom ports j (i + 1) fuel).2)

/-- Outcome of a select call: the state afterwards, the yield flag, and
the port-lock acquisition and release orders (as indices k into the
argument array). -/
structure SelectOut where
  st : SelState
  yield : Bool
  lockOrder : List Nat
  unlockOrder : List Nat
  deriving Repr, DecidableEq

/-- Embedding of rust_port_selector::select (lines 10-68): assert no
select is active (this->ports == NULL) and n_ports != 0 (assertion
failure modelled as none); clear the yield flag; scan the ports in
rotated order from random start j, taking each scanned port's lock; on a
non-empty buffer write that port into *dptr and stop; otherwise publish
the port set, assert the rendezvous slot is clear, point it at dptr,
block the task with reason "waiting for select rendezvous", and set the
yield flag; finally release exactly the locks taken, iterating the same
rotated order. -/
def select (st : SelState) (ports : List SelPort) (j : Nat) : Option SelectOut :=
  if st.selPorts = none ∧ ports.length ≠ 0 then
    let scan := scanFrom ports j 0 ports.length
    let unlocks := (List.range scan.1.length).map (fun i => (i + j) % ports.length)
    match scan.2 with
    | some k =>
      some { st := { st with dptrCell := some ((ports.getD k dummyPort).pid) },
             yield := false, lockOrder := scan.1, unlockOrder := unlocks }
    | none =>
      if st.rendezvousSet then none
      else
        some { st := { st with
                       selPorts := some (ports.map SelPort.pid),
                       blockedOnSel := true,
                       rendezvousSet := true,
                       blockReason := some "waiting for select rendezvous" },
               yield := true, lockOrder := scan.1, unlockOrder := unlocks }
  else none

/-- Outcome of msg_sent_on: state afterwards, whether the port reference
was written through the task's rendezvous pointer, and whether the task
was woken. -/
structure MsgSentOut where
  st : SelState
  wrote : Bool
  woke : Bool
  deriving Repr, DecidableEq

/-- Embedding of rust_port_selector::msg_sent_on (lines 70-93): under the
selector's rendezvous lock, when the owning task is still blocked on this
selector and the port is one of the published set, clear the published
set, write the port through the rendezvous pointer, clear the pointer,
and wake the task; in every other case do nothing. -/
def msg_sent_on (st : SelState) (pid : Nat) : MsgSentOut :=
  if st.blockedOnSel then
    match st.selPorts with
    | some ps =>
      if pid ∈ ps then
        { st := { st with
                  selPorts := none,
                  dptrCell := some pid,
                  rendezvousSet := false,
                  blockedOnSel := false,
                  blockReason := none },
          wrote := true, woke := true }
      else { st := st, wrote := false, woke := false }
    | none => { st := st, wrote := false, woke := false }
  else { st := st, wrote := false, woke := false }

/-! ## Worker scheduling loop and reaping (rust_task_thread.cpp) -/

/-- Observable actions of reaping one dead task: releasing its id from
the kernel table, destroying its stacks, and dropping its refcount. -/
inductive ReapEvent where
  | releasedId (tid : Nat)
  | stacksDestroyed (tid : Nat)
  | deref (tid : Nat)
  deriving Repr, DecidableEq

/-- The four task lists of a worker's loop, holding task ids. -/
structure LoopWorker where
  newborn : List Nat
  running : List Nat
  blocked : List Nat
  dead : List Nat
  deriving Repr, DecidableEq

/-- Every task currently on the worker, across the four lists. -/
def allLists (w : LoopWorker) : List Nat :=
  w.newborn ++ w.running ++ w.blocked ++ w.dead

/-- Embedding of rust_task_thread::reap_dead_tasks (lines 130-155): an
empty dead list returns at once; otherwise the list must hold exactly one
task (the assertion "Only one task should die during a single turn of the
event loop", modelled as none on failure), which is popped, released from
the kernel id table, has its stacks destroyed, and is dereferenced —
each exactly once. -/
def reap_dead_tasks (w : LoopWorker) : Option (LoopWorker × List ReapEvent) :=
  match w.dead with
  | [] => some (w, [])
  | [t] => some ({ w with dead := [] },
      [ReapEvent.releasedId t, ReapEvent.stacksDestroyed t, ReapEvent.deref t])
  | _ => none

/-- Loop state: the worker lists, every task id ever created on this
worker, and the reap events emitted so far. -/
structure LoopState where
  w : LoopWorker
  seen : List Nat
  evs : List ReapEvent
  deriving Repr, DecidableEq

/-- Transitions that can interleave while a task runs (or while the loop
waits), all taken under the worker lock by transition(): another task or
thread creates a task here (append to newborn), starts a newborn one
(newborn → running), or wakes a blocked one (blocked → running). -/
inductive MidEffect where
  | spawn (t : Nat)
  | startT (t : Nat)
  | wakeup (t : Nat)
  deriving Repr, DecidableEq

/-- How an activation returns to the loop: the activated task yielded
(still running), blocked itself, or died; only the activated task can
move to the dead list during its own activation. -/
inductive EndKind where
  | yieldE
  | blockE
  | dieE
  deriving Repr, DecidableEq

/-- One turn of start_main_loop: either an activation of a running task
followed by reap_dead_tasks, or the idle wait (running empty) followed by
the assertion that no task died while waiting. -/
inductive Turn where
  | act (a : Nat) (effs : List MidEffect) (ek : EndKind)
  | wait (effs : List MidEffect)
  deriving Repr, DecidableEq

/-- Apply one interleaved transition; the source-list membership checks
are the transition() state assertions, and spawned ids are fresh (kernel
ids are never reused). -/
def applyMid (s : LoopState) : MidEffect → Option LoopState
  | MidEffect.spawn t =>
    if t ∈ s.seen then none
    else some { s with
      w := { s.w with newborn := s.w.newborn ++ [t] },
      seen := s.seen ++ [t] }
  | MidEffect.startT t =>
    if t ∈ s.w.newborn then
      some { s with w := { s.w with
        newborn := s.w.newborn.erase t,
        running := s.w.running ++ [t] } }
    else none
  | MidEffect.wakeup t =>
    if t ∈ s.w.blocked then
      some { s with w := { s.w with
        blocked := s.w.blocked.erase t,
        running := s.w.running ++ [t] } }
    else none

/-- Apply a sequence of interleaved transitions. -/
def applyMids : LoopState → List MidEffect → Option LoopState
  | s, [] => some s
  | s, e :: rest =>
    match applyMid s e with
    | none => none
    | some s1 => applyMids s1 rest

/-- Apply the activated task's final transition back to the loop. -/
def applyEnd (a : Nat) (s : LoopState) : EndKind → Option LoopState
  | EndKind.yieldE => some s
  | EndKind.blockE =>
    if a ∈ s.w.running then
      some { s with w := { s.w with
        running := s.w.running.erase a,
        blocked := s.w.blocked ++ [a] } }
    else none
  | EndKind.dieE =>
    if a ∈ s.w.running then
      some { s with w := { s.w with
        running := s.w.running.erase a,
        dead := s.w.dead ++ [a] } }
    else none

/-- One turn of the scheduling loop (start_main_loop, lines 239-283): an
activation turn schedules a running task, lets transitions interleave,
applies the task's own return transition, and reaps; a wait turn requires
nothing runnable, waits while transitions interleave, and asserts that
no task died while the loop was waiting. -/
def runTurn (s : LoopState) : Turn → Option LoopState
  | Turn.act a effs ek =>
    if a ∈ s.w.running then
      match applyMids s effs with
      | none => none
      | some s1 =>
        match applyEnd a s1 ek with
        | none => none
        | some s2 =>
          match reap_dead_tasks s2.w with
          | none => none
          | some (w3, evs3) =>
            some { w := w3, seen := s2.seen, evs := s2.evs ++ evs3 }
    else none
  | Turn.wait effs =>
    if s.w.running = [] then
      match applyMids s effs with
      | none => none
      | some s1 => if s1.w.dead = [] then some s1 else none
    else none

/-- Run a sequence of turns. -/
def runTurns : LoopState → List Turn → Option LoopState
  | s, [] => some s
  | s, t :: rest =>
    match runTurn s t with
    | none => none
    | some s1 => runTurns s1 rest

/-- The empty worker at loop start. -/
def initLoop : LoopState := ⟨⟨[], [], [], []⟩, [], []⟩

/-- The task-level preconditions of a turn: an activation picks a
runnable task and its interleaved transitions are themselves valid; a
wait happens only with nothing runnable and valid interleavings.  (The
reap assertion is deliberately not assumed: it is proved.) -/
def ActPre (s : LoopState) : Turn → Prop
  | Turn.act a effs _ => a ∈ s.w.running ∧ applyMids s effs ≠ none
  | Turn.wait effs => s.w.running = [] ∧ applyMids s effs ≠ none

/-- Preconditions hold at every state the trace reaches. -/
def TraceOk : LoopState → List Turn → Prop
  | _, [] => True
  | s, t :: rest => ActPre s t ∧ ∀ s1, runTurn s t = some s1 → TraceOk s1 rest

/-- The loop invariant at turn boundaries: the dead list is empty, the
four lists are duplicate-free as a whole (a partition), every listed task
was created here, created ids are unique, and the reap events hold
exactly one release/destroy/deref triple for every created task that has
left the lists and none for the others. -/
def InvCore (s : LoopState) : Prop :=
  (allLists s.w).Nodup ∧
  (∀ t ∈ allLists s.w, t ∈ s.seen) ∧
  s.seen.Nodup ∧
  (∀ t ∈ allLists s.w,
    s.evs.count (ReapEvent.releasedId t) = 0 ∧
    s.evs.count (ReapEvent.stacksDestroyed t) = 0 ∧
    s.evs.count (ReapEvent.deref t) = 0) ∧
  (∀ t ∈ s.seen, t ∉ allLists s.w →
    s.evs.count (ReapEvent.releasedId t) = 1 ∧
    s.evs.count (ReapEvent.stacksDestroyed t) = 1 ∧
    s.evs.count (ReapEvent.deref t) = 1) ∧
  (∀ t : Nat, t ∉ s.seen →
    s.evs.count (ReapEvent.releasedId t) = 0 ∧
    s.evs.count (ReapEvent.stacksDestroyed t) = 0 ∧
    s.evs.count (ReapEvent.deref t) = 0)

/-- The full turn-boundary invariant. -/
def LoopInv (s : LoopState) : Prop := InvCore s ∧ s.w.dead = []

end RustRt

namespace RustRt

/-! ## Theorems for scheduler placement (C5) -/

/-- Claim C5: every create_task call increments live_tasks by one, takes
the current cursor as the worker index, and advances the cursor modulo N;
the i-th of n back-to-back calls from cursor c0 therefore lands on worker
(c0 + i) mod N, and spawning 9 tasks on a 3-worker scheduler places
exactly 3 tasks on each of the workers 0, 1, 2. -/
theorem create_task_round_robin (s : Sched) (n : Nat)
    (hN : 1 ≤ s.numThreads) (hc : s.curThread < s.numThreads) :
    ((spawnMany s n).1.liveTasks = s.liveTasks + n) ∧
    ((spawnMany s n).2.length = n) ∧
    (∀ i : Nat, i < n →
      (spawnMany s n).2.getD i 0 = (s.curThread + i) % s.numThreads) ∧
    ((spawnMany ⟨0, 0, 3⟩ 9).2.count 0 = 3 ∧
     (spawnMany ⟨0, 0, 3⟩ 9).2.count 1 = 3 ∧
     (spawnMany ⟨0, 0, 3⟩ 9).2.count 2 = 3) := by
  have key : ∀ (m : Nat) (t : Sched), t.numThreads = s.numThreads →
      t.curThread < t.numThreads →
      ((spawnMany t m).1.liveTasks = t.liveTasks + m) ∧
      ((spawnMany t m).2.length = m) ∧
      (∀ i : Nat, i < m →
        (spawnMany t m).2.getD i 0 = (t.curThread + i) % t.numThreads) := by
    intro m
    induction m with
    | zero =>
      intro t _ _
      refine ⟨rfl, rfl, ?_⟩
      intro i hi
      exact absurd hi (Nat.not_lt_zero i)
    | succ m ih =>
      intro t hEq hLt
      have hN1 : 1 ≤ t.numThreads := Nat.lt_of_le_of_lt (Nat.zero_le _) hLt
      -- the state after one create_task
      set t1 : Sched := (sched_create_task t).1 with ht1
      have hnum : t1.numThreads = s.numThreads := by
        simp [ht1, sched_create_task, hEq]
      have hcur : t1.curThread =
          (t.curThread + 1) % t.numThreads := by
        simp only [ht1, sched_create_task]
        by_cases h : t.numThreads ≤ t.curThread + 1
        · have : t.curThread + 1 = t.numThreads := Nat.le_antisymm hLt h
          simp [h, this]
        · have hlt : t.curThread + 1 < t.numThreads := Nat.lt_of_not_le h
          simp [h, Nat.mod_eq_of_lt hlt]
      have hcurlt : t1.curThread < t1.numThreads := by
        rw [hcur]
        have : t1.numThreads = t.numThreads := by
          simp [ht1, sched_create_task]
        rw [this]
        exact Nat.mod_lt _ (Nat.lt_of_lt_of_le Nat.zero_lt_one hN1)
      have hnum1 : t1.numThreads = t.numThreads := by
        simp [ht1, sched_create_task]
      obtain ⟨ihLive, ihLen, ihIdx⟩ := ih t1 (hnum1.trans hEq) hcurlt
      have hlive1 : t1.liveTasks = t.liveTasks + 1 := by
        simp [ht1, sched_create_task]
      have hspawn : spawnMany t (m + 1) =
          ((spawnMany t1 m).1, t.curThread :: (spawnMany t1 m).2) := rfl
      refine ⟨?_, ?_, ?_⟩
      · rw [hspawn]
        simp only []
        rw [ihLive, hlive1, Nat.add_assoc, Nat.add_comm 1 m]
      · rw [hspawn]
        simp [ihLen]
      · intro i hi
        rw [hspawn]
        cases i with
        | zero =>
          simp [Nat.mod_eq_of_lt hLt]
        | succ i =>
          have hi2 : i < m := Nat.lt_of_succ_lt_succ hi
          have := ihIdx i hi2
          simp only [List.getD_cons_succ]
          rw [this, hcur, hnum1, Nat.mod_add_mod]
          congr 1
          omega
  obtain ⟨h1, h2, h3⟩ := key n s rfl hc
  refine ⟨h1, h2, h3, ?_⟩
  decide

/-- Witness for create_task_round_robin at a concrete scheduler. -/
theorem create_task_round_robin_witness :
    ((spawnMany ⟨0, 0, 3⟩ 9).1.liveTasks = 0 + 9) ∧
    ((spawnMany ⟨0, 0, 3⟩ 9).2.length = 9) ∧
    (∀ i : Nat, i < 9 →
      (spawnMany (⟨0, 0, 3⟩ : Sched) 9).2.getD i 0 = (0 + i) % 3) ∧
    ((spawnMany ⟨0, 0, 3⟩ 9).2.count 0 = 3 ∧
     (spawnMany ⟨0, 0, 3⟩ 9).2.count 1 = 3 ∧
     (spawnMany ⟨0, 0, 3⟩ 9).2.count 2 = 3) :=
  create_task_round_robin ⟨0, 0, 3⟩ 9 (by decide) (by decide)

/-! ## Theorems for worker release (C6) -/

/-- Helper: after `k ≤ N` releases starting from `N` live threads, the
counter reads `N - k` and `release_scheduler_id` fired exactly when the
count reached 0, i.e. on the N-th call and on no other. -/
theorem releaseWorkers_spec (N k : Nat) (hk : k ≤ N) :
    (releaseWorkers ⟨N⟩ k).1.liveThreads = N - k ∧
    (releaseWorkers ⟨N⟩ k).2 = (if k = N ∧ 1 ≤ N then 1 else 0) := by
  have key : ∀ (k0 n : Nat), k0 ≤ n →
      (releaseWorkers ⟨n⟩ k0).1.liveThreads = n - k0 ∧
      (releaseWorkers ⟨n⟩ k0).2 = (if k0 = n ∧ 1 ≤ n then 1 else 0) := by
    intro k0
    induction k0 with
    | zero =>
      intro n _
      constructor
      · rfl
      · have : ¬(0 = n ∧ 1 ≤ n) := by omega
        simp [releaseWorkers, this]
    | succ k0 ih =>
      intro n hle
      have hn1 : 1 ≤ n := by omega
      obtain ⟨ihA, ihB⟩ := ih (n - 1) (by omega)
      constructor
      · show (releaseWorkers ⟨n - 1⟩ k0).1.liveThreads = n - (k0 + 1)
        rw [ihA]
        omega
      · have hgoal : (releaseWorkers ⟨n⟩ (k0 + 1)).2 =
            (if n - 1 = 0 then 1 else 0) + (releaseWorkers ⟨n - 1⟩ k0).2 := by
          show (if (release_task_thread ⟨n⟩).2 then 1 else 0) +
              (releaseWorkers ⟨n - 1⟩ k0).2 = _
          congr 1
          simp [release_task_thread]
        rw [hgoal, ihB]
        split_ifs <;> omega
  exact key k N hk

/-- Claim C6: release_task_thread decrements live_threads under the lock
and calls kernel.release_scheduler_id exactly when the decrement brings
the count to 0; over a scheduler lifetime of N workers each releasing
once, the count reaches 0 exactly once, so deregistration fires exactly
once, on the final release — and the task-accounting operations
(create_task, release_task) never change live_threads. -/
theorem live_threads_zero_once (N k : Nat) (hN : 1 ≤ N) (hk : k ≤ N) :
    ((releaseWorkers ⟨N⟩ N).2 = 1) ∧
    ((releaseWorkers ⟨N⟩ k).2 = (if k = N then 1 else 0)) ∧
    (∀ s : SchedThreads, (release_task_thread s).2 = true ↔
        s.liveThreads - 1 = 0) ∧
    (∀ s : Sched, (sched_create_task s).1.numThreads = s.numThreads) ∧
    (∀ s : Sched, (sched_release_task s).1.numThreads = s.numThreads ∧
        (sched_release_task s).1.curThread = s.curThread) := by
  refine ⟨?_, ?_, ?_, ?_, ?_⟩
  · have := (releaseWorkers_spec N N (Nat.le_refl N)).2
    rw [this]
    simp [hN]
  · have := (releaseWorkers_spec N k hk).2
    rw [this]
    by_cases h : k = N
    · simp [h, hN]
    · simp [h]
  · intro s
    simp [release_task_thread]
  · intro s
    rfl
  · intro s
    exact ⟨rfl, rfl⟩

/-- Witness for live_threads_zero_once at N = 4 workers, k = 2 releases. -/
theorem live_threads_zero_once_witness :
    (1 ≤ 4 ∧ 2 ≤ 4) ∧
    (((releaseWorkers ⟨4⟩ 4).2 = 1) ∧
     ((releaseWorkers ⟨4⟩ 2).2 = (if 2 = 4 then 1 else 0)) ∧
     (∀ s : SchedThreads, (release_task_thread s).2 = true ↔
         s.liveThreads - 1 = 0) ∧
     (∀ s : Sched, (sched_create_task s).1.numThreads = s.numThreads) ∧
     (∀ s : Sched, (sched_release_task s).1.numThreads = s.numThreads ∧
         (sched_release_task s).1.curThread = s.curThread)) :=
  ⟨⟨by decide, by decide⟩, live_threads_zero_once 4 2 (by decide) (by decide)⟩

/-! ## Theorems for scheduler creation (C7) -/

/-- Claim C7: rust_new_sched fails (assertion, modelled as an error) when
num_threads = 0, and for num_threads ≥ 1 it allocates the next fresh id —
one not already registered, provided registered ids are below the
allocator cursor — registers a scheduler with num_threads workers under
that id, and returns the id. -/
theorem rust_new_sched_spec (k : Kernel) (threads : Nat)
    (hfresh : ∀ p ∈ k.scheds, p.1 < k.nextSchedId) :
    (rust_new_sched k 0 = Except.error
        "Cannot create a scheduler with no threads") ∧
    (1 ≤ threads →
      ∃ k2 : Kernel, rust_new_sched k threads = Except.ok (k2, k.nextSchedId) ∧
        (k.nextSchedId, threads) ∈ k2.scheds ∧
        (∀ p ∈ k.scheds, p ∈ k2.scheds) ∧
        k2.nextSchedId = k.nextSchedId + 1 ∧
        (k.nextSchedId, threads) ∉ k.scheds) := by
  constructor
  · rfl
  · intro ht
    refine ⟨(create_scheduler k threads).1, ?_, ?_, ?_, ?_, ?_⟩
    · simp [rust_new_sched, Nat.lt_of_lt_of_le Nat.zero_lt_one ht,
        create_scheduler]
    · simp [create_scheduler]
    · intro p hp
      simp [create_scheduler]
      right
      exact hp
    · rfl
    · intro hmem
      have := hfresh _ hmem
      exact absurd this (Nat.lt_irrefl _)

/-- Witness for rust_new_sched_spec on an empty kernel and 3 threads. -/
theorem rust_new_sched_spec_witness :
    (∀ p ∈ (Kernel.mk 0 []).scheds, p.1 < (Kernel.mk 0 []).nextSchedId) ∧
    ((rust_new_sched ⟨0, []⟩ 0 = Except.error
        "Cannot create a scheduler with no threads") ∧
     (1 ≤ 3 →
       ∃ k2 : Kernel, rust_new_sched ⟨0, []⟩ 3 = Except.ok (k2, 0) ∧
         (0, 3) ∈ k2.scheds ∧
         (∀ p ∈ (Kernel.mk 0 []).scheds, p ∈ k2.scheds) ∧
         k2.nextSchedId = 0 + 1 ∧
         ((0 : Nat), (3 : Nat)) ∉ (Kernel.mk 0 []).scheds)) :=
  ⟨by simp, rust_new_sched_spec ⟨0, []⟩ 3 (by simp)⟩

/-! ## Theorems for the write-completion tag (C9) -/

/-- Claim C9 (code bug): the claim says a completed write delivers a
message tagged wrote_tag, but on_write builds the message with
msg.tag = timer_tag, and timer_tag ≠ wrote_tag; so every write completion
is delivered with the timer tag instead of the write tag. -/
theorem on_write_uses_timer_tag :
    (on_write 7).tag = timer_tag ∧
    timer_tag ≠ wrote_tag ∧
    (on_write 7).tag ≠ wrote_tag := by
  refine ⟨rfl, ?_, ?_⟩ <;> decide

/-! ## Theorems for blocking receive (C3) -/

/-- Counterexample to claim C3 as stated: a killed task receiving on an
empty port gets the killed flag set but the yield output flag stays
false — port_recv does not request a yield on the killed path. -/
theorem port_recv_killed_leaves_yield_false :
    (port_recv ⟨true, none, none⟩ ⟨[]⟩ 0).killedFlag = true ∧
    (port_recv ⟨true, none, none⟩ ⟨[]⟩ 0).yieldFlag = false := by
  decide

/-- Claim C3 as amended: with a non-empty buffer one message is popped
with both flags false; with an empty buffer and the kill flag set, the
lock is released and only the killed output flag is set (yield stays
false; the caller initiates unwinding); otherwise dptr is stored in the
rendezvous slot, the task blocks on the port with reason "waiting for
rendezvous data", and the yield flag is set. -/
theorem port_recv_spec (task : RTask) (port : RPort) (dptr : Nat) :
    (∀ m rest, port.buffer = m :: rest →
      port_recv task port dptr =
        { port := ⟨rest⟩, task := task, yieldFlag := false,
          killedFlag := false, received := some m }) ∧
    (port.buffer = [] → task.killed = true →
      port_recv task port dptr =
        { port := port, task := task, yieldFlag := false,
          killedFlag := true, received := none }) ∧
    (port.buffer = [] → task.killed = false →
      port_recv task port dptr =
        { port := port,
          task := { task with
                    rendezvousPtr := some dptr,
                    blockedWithReason := some "waiting for rendezvous data" },
          yieldFlag := true, killedFlag := false, received := none }) := by
  refine ⟨?_, ?_, ?_⟩
  · intro m rest hbuf
    simp [port_recv, port_receive, hbuf]
  · intro hbuf hk
    simp [port_recv, port_receive, hbuf, hk]
  · intro hbuf hk
    simp [port_recv, port_receive, hbuf, hk]

/-- Witness for port_recv_spec: a one-message buffer pops that message. -/
theorem port_recv_spec_witness :
    port_recv ⟨false, none, none⟩ ⟨[5]⟩ 3 =
      { port := ⟨[]⟩, task := ⟨false, none, none⟩, yieldFlag := false,
        killedFlag := false, received := some 5 } :=
  (port_recv_spec ⟨false, none, none⟩ ⟨[5]⟩ 3).1 5 [] rfl

/-! ## Theorems for channel send (C8) -/

/-- Helper: updating a key twice keeps only the second value. -/
theorem updAssoc_updAssoc {α : Type} (l : List (Nat × α)) (k : Nat)
    (v w : α) : updAssoc (updAssoc l k v) k w = updAssoc l k w := by
  induction l with
  | nil => rfl
  | cons hd rest ih =>
    obtain ⟨key, x⟩ := hd
    by_cases h : key = k
    · simp [updAssoc, h]
    · simp [updAssoc, h, ih]

/-- Helper: writing back the looked-up value is the identity. -/
theorem updAssoc_cancel {α : Type} (l : List (Nat × α)) (k : Nat) (t : α)
    (h : findAssoc l k = some t) : updAssoc l k t = l := by
  induction l with
  | nil => rfl
  | cons hd rest ih =>
    obtain ⟨key, x⟩ := hd
    by_cases hk : key = k
    · have hx : x = t := by
        have := h
        simp [findAssoc, hk] at this
        exact this
      simp [updAssoc, hk, hx]
    · have hrest : findAssoc rest k = some t := by
        have := h
        simpa [findAssoc, hk] using this
      simp [updAssoc, hk, ih hrest]

/-- Helper: a lookup after an update of a present key sees the new
value. -/
theorem findAssoc_updAssoc {α : Type} (l : List (Nat × α)) (k : Nat)
    (v old : α) (h : findAssoc l k = some old) :
    findAssoc (updAssoc l k v) k = some v := by
  induction l with
  | nil => simp [findAssoc] at h
  | cons hd rest ih =>
    obtain ⟨key, x⟩ := hd
    by_cases hk : key = k
    · simp [updAssoc, findAssoc, hk]
    · have hrest : findAssoc rest k = some old := by
        have := h
        simpa [findAssoc, hk] using this
      simp [updAssoc, findAssoc, hk, ih hrest]

/-- Claim C8: chan_id_send returns false with the kernel state unchanged
(no port mutated, no error raised) when the target task id or the target
port id does not resolve, and returns true exactly when both resolve, in
which case the unit is appended to the resolved port's buffer and the
refcounts taken by the two lookups are restored. -/
theorem chan_id_send_spec (k : CKernel) (ttid tpid sptr : Nat) :
    (findAssoc k.tasks ttid = none →
      chan_id_send k ttid tpid sptr = (k, false)) ∧
    (∀ t, findAssoc k.tasks ttid = some t →
      findAssoc t.ports tpid = none →
      chan_id_send k ttid tpid sptr = (k, false)) ∧
    (∀ t p, findAssoc k.tasks ttid = some t →
      findAssoc t.ports tpid = some p →
      (chan_id_send k ttid tpid sptr).2 = true ∧
      (∃ t2 : CTask,
        findAssoc (chan_id_send k ttid tpid sptr).1.tasks ttid = some t2 ∧
        t2.refs = t.refs ∧
        findAssoc t2.ports tpid =
          some ⟨p.refs, p.buffer ++ [sptr]⟩ ∧
        t2.ports = updAssoc t.ports tpid ⟨p.refs, p.buffer ++ [sptr]⟩ ∧
        (chan_id_send k ttid tpid sptr).1.tasks = updAssoc k.tasks ttid t2)) ∧
    ((chan_id_send k ttid tpid sptr).2 = true ↔
      ∃ t p, findAssoc k.tasks ttid = some t ∧
        findAssoc t.ports tpid = some p) := by
  have hnone : findAssoc k.tasks ttid = none →
      chan_id_send k ttid tpid sptr = (k, false) := by
    intro hT
    simp [chan_id_send, get_task_by_id, hT]
  have hmain : ∀ t p, findAssoc k.tasks ttid = some t →
      findAssoc t.ports tpid = some p →
      chan_id_send k ttid tpid sptr =
        (⟨updAssoc k.tasks ttid
            ⟨t.refs, updAssoc t.ports tpid ⟨p.refs, p.buffer ++ [sptr]⟩⟩⟩,
          true) := by
    intro t p hT hP
    simp only [chan_id_send, get_task_by_id, get_port_by_id, hT, hP,
      cport_deref, port_send, task_deref, Nat.add_sub_cancel,
      updAssoc_updAssoc]
  have hmiss : ∀ t, findAssoc k.tasks ttid = some t →
      findAssoc t.ports tpid = none →
      chan_id_send k ttid tpid sptr = (k, false) := by
    intro t hT hP
    simp only [chan_id_send, get_task_by_id, get_port_by_id, hT, hP,
      task_deref, Nat.add_sub_cancel, updAssoc_updAssoc]
    rw [updAssoc_cancel k.tasks ttid t hT]
  refine ⟨hnone, hmiss, ?_, ?_⟩
  · intro t p hT hP
    rw [hmain t p hT hP]
    refine ⟨rfl, ⟨⟨t.refs, updAssoc t.ports tpid ⟨p.refs, p.buffer ++ [sptr]⟩⟩,
      ?_, rfl, ?_, rfl, rfl⟩⟩
    · exact findAssoc_updAssoc k.tasks ttid _ t hT
    · exact findAssoc_updAssoc t.ports tpid _ p hP
  · constructor
    · intro htrue
      cases hT : findAssoc k.tasks ttid with
      | none =>
        rw [hnone hT] at htrue
        exact absurd htrue Bool.false_ne_true
      | some t =>
        cases hP : findAssoc t.ports tpid with
        | none =>
          rw [hmiss t hT hP] at htrue
          exact absurd htrue Bool.false_ne_true
        | some p => exact ⟨t, p, rfl, hP⟩
    · intro ⟨t, p, hT, hP⟩
      rw [hmain t p hT hP]

/-- Witness for chan_id_send_spec on a kernel with one task owning one
port: the send resolves, appends the unit, and restores refcounts. -/
theorem chan_id_send_spec_witness :
    (findAssoc (CKernel.mk [(4, ⟨1, [(9, ⟨1, [3]⟩)]⟩)]).tasks 4 =
      some ⟨1, [(9, ⟨1, [3]⟩)]⟩) ∧
    (findAssoc (CTask.mk 1 [(9, ⟨1, [3]⟩)]).ports 9 = some ⟨1, [3]⟩) ∧
    ((chan_id_send ⟨[(4, ⟨1, [(9, ⟨1, [3]⟩)]⟩)]⟩ 4 9 7).2 = true ∧
      (∃ t2 : CTask,
        findAssoc (chan_id_send ⟨[(4, ⟨1, [(9, ⟨1, [3]⟩)]⟩)]⟩ 4 9 7).1.tasks 4
          = some t2 ∧
        t2.refs = (CTask.mk 1 [(9, ⟨1, [3]⟩)]).refs ∧
        findAssoc t2.ports 9 = some ⟨1, [3] ++ [7]⟩ ∧
        t2.ports = updAssoc (CTask.mk 1 [(9, ⟨1, [3]⟩)]).ports 9
          ⟨1, [3] ++ [7]⟩ ∧
        (chan_id_send ⟨[(4, ⟨1, [(9, ⟨1, [3]⟩)]⟩)]⟩ 4 9 7).1.tasks =
          updAssoc (CKernel.mk [(4, ⟨1, [(9, ⟨1, [3]⟩)]⟩)]).tasks 4 t2)) :=
  ⟨rfl, rfl,
    (chan_id_send_spec ⟨[(4, ⟨1, [(9, ⟨1, [3]⟩)]⟩)]⟩ 4 9 7).2.2.1
      ⟨1, [(9, ⟨1, [3]⟩)]⟩ ⟨1, [3]⟩ rfl rfl⟩

/-! ## Theorems for kill_all_tasks (C10) -/

/-- Helper: updating an absent id changes nothing. -/
theorem updIn_eq_self (tid : Nat) (f : KTask → KTask) :
    ∀ l : List KTask, tid ∉ tids l → updIn l tid f = l := by
  intro l
  induction l with
  | nil => intro _; rfl
  | cons t rest ih =>
    intro h
    simp only [tids, List.map_cons, List.mem_cons, not_or] at h
    obtain ⟨h1, h2⟩ := h
    simp only [updIn, List.map_cons]
    rw [if_neg (fun he => h1 he.symm)]
    have := ih h2
    simp only [updIn] at this
    rw [this]

/-- Helper: unsupervising maps every task record in place. -/
theorem allTasks_task_unsupervise (w : Worker10) (tid : Nat) :
    allTasks (task_unsupervise w tid) =
      (allTasks w).map
        (fun t => if t.tid = tid then unsupervise_task t else t) := by
  simp [allTasks, task_unsupervise, updIn, List.map_append]

/-- Helper: splitting a list by a Bool test is a permutation. -/
theorem filter_split_perm (tid : Nat) :
    ∀ l : List KTask,
      (l.filter (fun t => t.tid == tid) ++
        l.filter (fun t => t.tid != tid)).Perm l := by
  intro l
  induction l with
  | nil => simp
  | cons t rest ih =>
    by_cases h : t.tid = tid
    · have hb : (t.tid == tid) = true := by
        simp [h]
      have hb2 : (t.tid != tid) = false := by
        simp [bne, hb]
      simp only [List.filter_cons, hb, hb2, if_true, if_false]
      simpa using ih.cons t
    · have hb : (t.tid == tid) = false := by
        simp [h]
      have hb2 : (t.tid != tid) = true := by
        simp [bne, hb]
      simp only [List.filter_cons, hb, hb2, if_true, if_false]
      exact List.Perm.trans List.perm_middle (ih.cons t)

/-- Helper: killing permutes the in-place-updated task records (blocked
tasks that match move to the running list). -/
theorem allTasks_task_kill_perm (w : Worker10) (tid : Nat) :
    (allTasks (task_kill w tid)).Perm
      ((allTasks w).map (fun t => if t.tid = tid then kill_flag t else t)) := by
  show (updIn w.newborn tid kill_flag ++
      (updIn w.running tid kill_flag ++
        (updIn w.blocked tid kill_flag).filter (fun t => t.tid == tid)) ++
      (updIn w.blocked tid kill_flag).filter (fun t => t.tid != tid) ++
      updIn w.dead tid kill_flag).Perm _
  simp only [allTasks, updIn, List.map_append, List.append_assoc]
  refine List.Perm.append_left _ ?_
  refine List.Perm.append_left _ ?_
  rw [← List.append_assoc]
  exact (filter_split_perm tid _).append_right _

/-- Helper: both per-task updates keep the task id. -/
theorem update_keeps_tid (tid : Nat) (t : KTask) :
    ((if t.tid = tid then unsupervise_task t else t).tid = t.tid) ∧
    ((if t.tid = tid then kill_flag t else t).tid = t.tid) := by
  constructor <;> by_cases h : t.tid = tid <;>
    simp [h, unsupervise_task, kill_flag]

/-- One pass of the processing loop over a single task id. -/
def stepKill (w : Worker10) (tid : Nat) : Worker10 :=
  task_kill (task_unsupervise w tid) tid

/-- The property established for a task id: every record with that id is
unsupervised and killed. -/
def flagged (w : Worker10) (tid0 : Nat) : Prop :=
  ∀ t2 ∈ allTasks w, t2.tid = tid0 →
    t2.supervised = false ∧ t2.killed = true

/-- Helper: a membership in the killed worker comes from a source
record. -/
theorem mem_stepKill (w : Worker10) (tid : Nat) (t2 : KTask)
    (h : t2 ∈ allTasks (stepKill w tid)) :
    ∃ t ∈ allTasks w,
      t2 = (fun t => if t.tid = tid then kill_flag t else t)
        ((fun t => if t.tid = tid then unsupervise_task t else t) t) := by
  have h1 := (allTasks_task_kill_perm (task_unsupervise w tid) tid).mem_iff.1 h
  rw [allTasks_task_unsupervise] at h1
  rw [List.map_map] at h1
  obtain ⟨t, ht, heq⟩ := List.mem_map.1 h1
  exact ⟨t, ht, heq.symm⟩

/-- Helper: stepKill establishes flagged for the processed id. -/
theorem stepKill_establishes (w : Worker10) (tid : Nat) :
    flagged (stepKill w tid) tid := by
  intro t2 h2 htid
  obtain ⟨t, _, heq⟩ := mem_stepKill w tid t2 h2
  by_cases h : t.tid = tid
  · simp only [h, if_pos, unsupervise_task, kill_flag] at heq
    subst heq
    exact ⟨rfl, rfl⟩
  · exfalso
    simp only [h, if_false] at heq
    subst heq
    exact h htid

/-- Helper: stepKill preserves flagged for every id. -/
theorem stepKill_preserves (w : Worker10) (tid tid0 : Nat)
    (hf : flagged w tid0) : flagged (stepKill w tid) tid0 := by
  intro t2 h2 htid
  obtain ⟨t, ht, heq⟩ := mem_stepKill w tid t2 h2
  have htid0 : t.tid = tid0 := by
    rw [heq] at htid
    by_cases h : t.tid = tid <;>
      simpa [h, unsupervise_task, kill_flag] using htid
  obtain ⟨hs, hk⟩ := hf t ht htid0
  rw [heq]
  by_cases h : t.tid = tid <;>
    by_cases h3 : (if t.tid = tid then unsupervise_task t else t).tid = tid <;>
    simp [h, h3, unsupervise_task, kill_flag, hs, hk]

/-- Helper: the whole loop preserves flagged. -/
theorem killAllGo_preserves (tid0 : Nat) :
    ∀ (l : List KTask) (w : Worker10), flagged w tid0 →
      flagged (killAllGo w l).1 tid0 := by
  intro l
  induction l with
  | nil => intro w hf; exact hf
  | cons t rest ih =>
    intro w hf
    exact ih (stepKill w t.tid) (stepKill_preserves _ _ _ hf)

/-- Helper: after the loop, every processed task id is flagged. -/
theorem killAllGo_flags :
    ∀ (l : List KTask) (w : Worker10) (t : KTask), t ∈ l →
      flagged (killAllGo w l).1 t.tid := by
  intro l
  induction l with
  | nil => intro w t ht; exact absurd ht (List.not_mem_nil t)
  | cons hd rest ih =>
    intro w t ht
    rcases List.mem_cons.1 ht with heq | hmem
    · subst heq
      exact killAllGo_preserves t.tid rest (stepKill w t.tid)
        (stepKill_establishes w t.tid)
    · exact ih (stepKill w hd.tid) t hmem

/-- Helper: the loop leaves the newborn and dead lists untouched when the
processed ids do not occur there. -/
theorem killAllGo_newborn_dead :
    ∀ (l : List KTask) (w : Worker10),
      (∀ t ∈ l, t.tid ∉ tids w.newborn ∧ t.tid ∉ tids w.dead) →
      (killAllGo w l).1.newborn = w.newborn ∧
        (killAllGo w l).1.dead = w.dead := by
  intro l
  induction l with
  | nil => intro w _; exact ⟨rfl, rfl⟩
  | cons t rest ih =>
    intro w h
    obtain ⟨hn, hd⟩ := h t (List.mem_cons_self t rest)
    have hstepn : (stepKill w t.tid).newborn = w.newborn := by
      show updIn (updIn w.newborn t.tid unsupervise_task) t.tid kill_flag
        = w.newborn
      rw [updIn_eq_self t.tid unsupervise_task w.newborn hn,
        updIn_eq_self t.tid kill_flag w.newborn hn]
    have hstepd : (stepKill w t.tid).dead = w.dead := by
      show updIn (updIn w.dead t.tid unsupervise_task) t.tid kill_flag
        = w.dead
      rw [updIn_eq_self t.tid unsupervise_task w.dead hd,
        updIn_eq_self t.tid kill_flag w.dead hd]
    have hrest : ∀ t2 ∈ rest, t2.tid ∉ tids (stepKill w t.tid).newborn ∧
        t2.tid ∉ tids (stepKill w t.tid).dead := by
      intro t2 ht2
      rw [hstepn, hstepd]
      exact h t2 (List.mem_cons_of_mem t ht2)
    have := ih (stepKill w t.tid) hrest
    rw [hstepn, hstepd] at this
    exact this

/-- Helper: the recorded calls are exactly unsupervise-then-kill per
processed task, in processing order. -/
theorem killAllGo_acts :
    ∀ (l : List KTask) (w : Worker10),
      (killAllGo w l).2 =
        l.flatMap (fun t => [KillAct.unsup t.tid, KillAct.kill t.tid]) := by
  intro l
  induction l with
  | nil => intro w; rfl
  | cons t rest ih =>
    intro w
    show KillAct.unsup t.tid :: KillAct.kill t.tid ::
        (killAllGo (stepKill w t.tid) rest).2 = _
    rw [ih (stepKill w t.tid)]
    rfl

/-- Helper: task ids survive a step (up to permutation of records). -/
theorem tids_stepKill (w : Worker10) (tid tid0 : Nat)
    (h : tid0 ∈ tids (allTasks w)) :
    tid0 ∈ tids (allTasks (stepKill w tid)) := by
  have hperm := (allTasks_task_kill_perm (task_unsupervise w tid) tid).map
    KTask.tid
  show tid0 ∈ (allTasks (task_kill (task_unsupervise w tid) tid)).map KTask.tid
  rw [hperm.mem_iff, List.map_map, allTasks_task_unsupervise, List.map_map]
  obtain ⟨t, ht, heq⟩ := List.mem_map.1 h
  refine List.mem_map.2 ⟨t, ht, ?_⟩
  show ((fun t => if t.tid = tid then kill_flag t else t)
      ((fun t => if t.tid = tid then unsupervise_task t else t) t)).tid = tid0
  rw [(update_keeps_tid tid _).2, (update_keeps_tid tid t).1]
  exact heq

/-- Helper: task ids survive the whole loop. -/
theorem killAllGo_tids (tid0 : Nat) :
    ∀ (l : List KTask) (w : Worker10), tid0 ∈ tids (allTasks w) →
      tid0 ∈ tids (allTasks (killAllGo w l).1) := by
  intro l
  induction l with
  | nil => intro w h; exact h
  | cons t rest ih =>
    intro w h
    exact ih (stepKill w t.tid) (tids_stepKill w t.tid tid0 h)

/-- Helper: every processed task contributes an adjacent
unsupervise-kill pair to the call record. -/
theorem killAllGo_pair :
    ∀ (l : List KTask) (w : Worker10) (t : KTask), t ∈ l →
      ∃ pre post, (killAllGo w l).2 =
        pre ++ KillAct.unsup t.tid :: KillAct.kill t.tid :: post := by
  intro l
  induction l with
  | nil => intro w t ht; exact absurd ht (List.not_mem_nil t)
  | cons hd rest ih =>
    intro w t ht
    rcases List.mem_cons.1 ht with heq | hmem
    · subst heq
      exact ⟨[], (killAllGo (stepKill w t.tid) rest).2, rfl⟩
    · obtain ⟨pre, post, hp⟩ := ih (stepKill w hd.tid) t hmem
      refine ⟨KillAct.unsup hd.tid :: KillAct.kill hd.tid :: pre, post, ?_⟩
      show KillAct.unsup hd.tid :: KillAct.kill hd.tid ::
          (killAllGo (stepKill w hd.tid) rest).2 = _
      rw [hp]
      rfl

/-- Claim C10: kill_all_tasks kills exactly the tasks snapshotted from
the running and blocked lists under the worker lock — the recorded calls
are an unsupervise immediately followed by a kill for each snapshotted
task and nothing else, the newborn and dead lists are left unchanged —
and afterwards every record of a snapshotted task is unsupervised and
killed, so its failure cannot propagate to its parent. -/
theorem kill_all_tasks_spec (w : Worker10)
    (hnd : (tids (allTasks w)).Nodup) :
    ((kill_all_tasks w).1.newborn = w.newborn) ∧
    ((kill_all_tasks w).1.dead = w.dead) ∧
    ((kill_all_tasks w).2 = ((w.running ++ w.blocked).reverse).flatMap
        (fun t => [KillAct.unsup t.tid, KillAct.kill t.tid])) ∧
    (∀ a ∈ (kill_all_tasks w).2,
      (∀ tid2, a = KillAct.unsup tid2 ∨ a = KillAct.kill tid2 →
        tid2 ∈ tids (w.running ++ w.blocked))) ∧
    (∀ t, t ∈ w.running ++ w.blocked →
      ∃ pre post, (kill_all_tasks w).2 =
        pre ++ KillAct.unsup t.tid :: KillAct.kill t.tid :: post) ∧
    (∀ t, t ∈ w.running ++ w.blocked →
      t.tid ∈ tids (allTasks (kill_all_tasks w).1)) ∧
    (∀ t, t ∈ w.running ++ w.blocked →
      ∀ t2 ∈ allTasks (kill_all_tasks w).1, t2.tid = t.tid →
        t2.supervised = false ∧ t2.killed = true ∧ ¬propagatesFailure t2) := by
  have hsnap : ∀ t, t ∈ (w.running ++ w.blocked).reverse ↔
      t ∈ w.running ++ w.blocked := fun t => List.mem_reverse
  have hsplit : tids (allTasks w) =
      tids w.newborn ++ (tids w.running ++ (tids w.blocked ++ tids w.dead)) := by
    simp [tids, allTasks, List.map_append, List.append_assoc]
  rw [hsplit] at hnd
  have hnd1 := List.nodup_append.1 hnd
  obtain ⟨_, hnd2, hdisjn⟩ := hnd1
  obtain ⟨_, hnd3, hdisjr⟩ := List.nodup_append.1 hnd2
  obtain ⟨_, _, hdisjb⟩ := List.nodup_append.1 hnd3
  have hnotnd : ∀ t ∈ (w.running ++ w.blocked).reverse,
      t.tid ∉ tids w.newborn ∧ t.tid ∉ tids w.dead := by
    intro t ht
    have ht2 := (hsnap t).1 ht
    rcases List.mem_append.1 ht2 with hr | hb
    · have hmr : t.tid ∈ tids w.running := List.mem_map_of_mem KTask.tid hr
      constructor
      · intro hmn
        exact hdisjn hmn (List.mem_append.2 (Or.inl hmr))
      · intro hmd
        exact hdisjr hmr (List.mem_append.2 (Or.inr hmd))
    · have hmb : t.tid ∈ tids w.blocked := List.mem_map_of_mem KTask.tid hb
      constructor
      · intro hmn
        exact hdisjn hmn
          (List.mem_append.2 (Or.inr (List.mem_append.2 (Or.inl hmb))))
      · intro hmd
        exact hdisjb hmb hmd
  obtain ⟨hnew, hdead⟩ :=
    killAllGo_newborn_dead ((w.running ++ w.blocked).reverse) w hnotnd
  refine ⟨hnew, hdead, killAllGo_acts _ w, ?_, ?_, ?_, ?_⟩
  · intro a ha tid2 htid2
    have ha2 : a ∈ (killAllGo w ((w.running ++ w.blocked).reverse)).2 := ha
    rw [killAllGo_acts _ w] at ha2
    obtain ⟨t, ht, hin⟩ := List.mem_flatMap.1 ha2
    have hin2 : a = KillAct.unsup t.tid ∨ a = KillAct.kill t.tid := by
      simpa using hin
    have htt : tid2 = t.tid := by
      rcases htid2 with h | h <;> rcases hin2 with h2 | h2 <;>
        rw [h] at h2 <;> injection h2
    rw [htt]
    exact List.mem_map_of_mem KTask.tid ((hsnap t).1 ht)
  · intro t ht
    exact killAllGo_pair _ w t ((hsnap t).2 ht)
  · intro t ht
    refine killAllGo_tids t.tid _ w ?_
    have : t ∈ allTasks w := by
      rcases List.mem_append.1 ht with h | h
      · exact List.mem_append.2 (Or.inl (List.mem_append.2 (Or.inl
          (List.mem_append.2 (Or.inr h)))))
      · exact List.mem_append.2 (Or.inl (List.mem_append.2 (Or.inr h)))
    exact List.mem_map_of_mem KTask.tid this
  · intro t ht t2 h2 htid
    have hf := killAllGo_flags ((w.running ++ w.blocked).reverse) w t
      ((hsnap t).2 ht)
    obtain ⟨hs, hk⟩ := hf t2 h2 htid
    refine ⟨hs, hk, ?_⟩
    intro ⟨_, hsup⟩
    rw [hs] at hsup
    exact Bool.false_ne_true hsup

/-- Witness for kill_all_tasks_spec on a worker with one newborn, one
running, one blocked and no dead task. -/
theorem kill_all_tasks_spec_witness :
    ((tids (allTasks ⟨[⟨1, true, false⟩], [⟨2, true, false⟩],
        [⟨3, true, false⟩], []⟩)).Nodup) ∧
    ((kill_all_tasks ⟨[⟨1, true, false⟩], [⟨2, true, false⟩],
        [⟨3, true, false⟩], []⟩).1.newborn = [⟨1, true, false⟩]) ∧
    ((kill_all_tasks ⟨[⟨1, true, false⟩], [⟨2, true, false⟩],
        [⟨3, true, false⟩], []⟩).1.dead = []) := by
  have h := kill_all_tasks_spec ⟨[⟨1, true, false⟩], [⟨2, true, false⟩],
    [⟨3, true, false⟩], []⟩ (by decide)
  exact ⟨by decide, h.1, h.2.1⟩

/-! ## Theorems for the selector (C1, C2) -/

/-- Helper: prepending one rotated index extends a shifted rotated
range. -/
theorem rotated_cons (n j i len : Nat) :
    ((i + j) % n) :: (List.range len).map (fun m => (i + 1 + m + j) % n) =
      (List.range (len + 1)).map (fun m => (i + m + j) % n) := by
  rw [List.range_succ_eq_map]
  simp only [List.map_cons, List.map_map]
  refine congrArg₂ List.cons ?_ ?_
  · norm_num
  · refine List.map_congr_left ?_
    intro a _
    show (i + 1 + a + j) % n = (i + (a + 1) + j) % n
    congr 1
    omega

/-- Helper: scanning all-empty ports locks every port in rotated order
and finds nothing. -/
theorem scanFrom_none (ports : List SelPort) (j : Nat) :
    ∀ (fuel i : Nat),
      (∀ m, m < fuel →
        (ports.getD ((i + m + j) % ports.length) dummyPort).bufSize = 0) →
      scanFrom ports j i fuel =
        ((List.range fuel).map (fun m => (i + m + j) % ports.length), none) := by
  intro fuel
  induction fuel with
  | zero => intro i _; rfl
  | succ fuel ih =>
    intro i h
    have h0 : (ports.getD ((i + j) % ports.length) dummyPort).bufSize = 0 := by
      have := h 0 (Nat.succ_pos fuel)
      simpa using this
    have hcond : ¬ ((ports.getD ((i + j) % ports.length) dummyPort).bufSize > 0) := by
      omega
    have hrec := ih (i + 1) (fun m hm => by
      have hx := h (m + 1) (Nat.succ_lt_succ hm)
      have he : i + (m + 1) + j = i + 1 + m + j := by omega
      rw [he] at hx
      exact hx)
    simp only [scanFrom, if_neg hcond, hrec]
    rw [rotated_cons]

/-- Helper: scanning finds the first rotated index with a non-empty
buffer, having locked exactly the scanned prefix. -/
theorem scanFrom_found (ports : List SelPort) (j : Nat) :
    ∀ (fuel i m0 : Nat), m0 < fuel →
      (ports.getD ((i + m0 + j) % ports.length) dummyPort).bufSize > 0 →
      (∀ m, m < m0 →
        (ports.getD ((i + m + j) % ports.length) dummyPort).bufSize = 0) →
      scanFrom ports j i fuel =
        ((List.range (m0 + 1)).map (fun m => (i + m + j) % ports.length),
          some ((i + m0 + j) % ports.length)) := by
  intro fuel
  induction fuel with
  | zero => intro i m0 h; exact absurd h (Nat.not_lt_zero m0)
  | succ fuel ih =>
    intro i m0 hm0 hbuf hzero
    cases m0 with
    | zero =>
      have hcond : (ports.getD ((i + j) % ports.length) dummyPort).bufSize > 0 := by
        simpa using hbuf
      simp only [scanFrom, if_pos hcond]
      have h1 : (List.range (0 + 1)).map
          (fun m => (i + m + j) % ports.length) = [(i + j) % ports.length] := by
        have : List.range 1 = [0] := by decide
        rw [Nat.zero_add, this]
        simp
      rw [h1]
      have h2 : i + 0 + j = i + j := by omega
      rw [h2]
    | succ m0 =>
      have h0 : (ports.getD ((i + j) % ports.length) dummyPort).bufSize = 0 := by
        have := hzero 0 (Nat.succ_pos m0)
        simpa using this
      have hcond : ¬ ((ports.getD ((i + j) % ports.length) dummyPort).bufSize > 0) := by
        omega
      have hbuf2 : (ports.getD ((i + 1 + m0 + j) % ports.length) dummyPort).bufSize > 0 := by
        have he : i + 1 + m0 + j = i + (m0 + 1) + j := by omega
        rw [he]
        exact hbuf
      have hzero2 : ∀ m, m < m0 →
          (ports.getD ((i + 1 + m + j) % ports.length) dummyPort).bufSize = 0 := by
        intro m hm
        have hx := hzero (m + 1) (Nat.succ_lt_succ hm)
        have he : i + (m + 1) + j = i + 1 + m + j := by omega
        rw [he] at hx
        exact hx
      have hrec := ih (i + 1) m0 (Nat.lt_of_succ_lt_succ hm0) hbuf2 hzero2
      simp only [scanFrom, if_neg hcond, hrec]
      refine congrArg₂ Prod.mk ?_ ?_
      · rw [rotated_cons]
      · have he : i + 1 + m0 + j = i + (m0 + 1) + j := by omega
        rw [he]

/-- Helper: whatever was scanned, the lock order is the rotated range
prefix of its own length. -/
theorem scanFrom_fst (ports : List SelPort) (j : Nat) :
    ∀ (fuel i : Nat),
      (scanFrom ports j i fuel).1 =
        (List.range (scanFrom ports j i fuel).1.length).map
          (fun m => (i + m + j) % ports.length) := by
  intro fuel
  induction fuel with
  | zero => intro i; rfl
  | succ fuel ih =>
    intro i
    by_cases hc : (ports.getD ((i + j) % ports.length) dummyPort).bufSize > 0
    · simp only [scanFrom, if_pos hc, List.length_cons, List.length_nil]
      have : List.range (0 + 1) = [0] := by decide
      rw [this]
      simp
    · simp only [scanFrom, if_neg hc, List.length_cons]
      conv_lhs => rw [ih (i + 1)]
      rw [rotated_cons]

/-- Claim C1: select, under its entry assertions (no active select,
n ≥ 1), scans the ports in rotated order k = (i + j) mod n, locking each
scanned port — the lock order is always the rotated prefix of its own
length and the unlock order repeats it exactly; when every port's buffer
is empty it publishes the port set, sets the rendezvous pointer, blocks
the task with reason "waiting for select rendezvous" and requests a
yield; when the first ready rotated index is i0 it writes that port's
reference into *dptr, leaves the yield flag false, stops after i0 + 1
locks, and leaves the selector and task state unchanged. -/
theorem select_spec (st : SelState) (ports : List SelPort) (j : Nat)
    (hsel : st.selPorts = none) (hrv : st.rendezvousSet = false)
    (hn : 1 ≤ ports.length) :
    (∀ o : SelectOut, select st ports j = some o →
      o.unlockOrder = o.lockOrder ∧
      o.lockOrder = (List.range o.lockOrder.length).map
        (fun m => (m + j) % ports.length)) ∧
    ((∀ i, i < ports.length →
        (ports.getD ((i + j) % ports.length) dummyPort).bufSize = 0) →
      select st ports j = some
        { st := { st with
                  selPorts := some (ports.map SelPort.pid),
                  blockedOnSel := true,
                  rendezvousSet := true,
                  blockReason := some "waiting for select rendezvous" },
          yield := true,
          lockOrder := (List.range ports.length).map
            (fun m => (m + j) % ports.length),
          unlockOrder := (List.range ports.length).map
            (fun m => (m + j) % ports.length) }) ∧
    (∀ i0, i0 < ports.length →
      (ports.getD ((i0 + j) % ports.length) dummyPort).bufSize > 0 →
      (∀ i, i < i0 →
        (ports.getD ((i + j) % ports.length) dummyPort).bufSize = 0) →
      select st ports j = some
        { st := { st with
            dptrCell := some ((ports.getD ((i0 + j) % ports.length) dummyPort).pid) },
          yield := false,
          lockOrder := (List.range (i0 + 1)).map
            (fun m => (m + j) % ports.length),
          unlockOrder := (List.range (i0 + 1)).map
            (fun m => (m + j) % ports.length) }) := by
  have hne : ports.length ≠ 0 := by omega
  have hfun : (fun m => (0 + m + j) % ports.length) =
      (fun m => (m + j) % ports.length) := by
    funext m
    congr 2
    omega
  refine ⟨?_, ?_, ?_⟩
  · intro o ho
    unfold select at ho
    rw [if_pos ⟨hsel, hne⟩] at ho
    simp only [hrv] at ho
    have hfst := scanFrom_fst ports j ports.length 0
    rw [hfun] at hfst
    cases hsc : (scanFrom ports j 0 ports.length).2 with
    | none =>
      rw [hsc] at ho
      simp only [Bool.false_eq_true, if_false, Option.some.injEq] at ho
      subst ho
      exact ⟨hfst.symm, hfst⟩
    | some k =>
      rw [hsc] at ho
      simp only [Option.some.injEq] at ho
      subst ho
      exact ⟨hfst.symm, hfst⟩
  · intro hall
    have hscan := scanFrom_none ports j ports.length 0 (fun m hm => by
      have := hall m hm
      simpa [Nat.zero_add] using this)
    unfold select
    rw [if_pos ⟨hsel, hne⟩]
    simp only [hscan, hrv, Bool.false_eq_true, if_false, hfun,
      List.length_map, List.length_range]
  · intro i0 hi0 hbuf hzero
    have hscan := scanFrom_found ports j ports.length 0 i0 hi0
      (by simpa [Nat.zero_add] using hbuf)
      (fun m hm => by
        have := hzero m hm
        simpa [Nat.zero_add] using this)
    unfold select
    rw [if_pos ⟨hsel, hne⟩]
    simp only [hscan, hfun, List.length_map, List.length_range,
      Nat.zero_add]

/-- Witness for select_spec: two ports, the second ready, start index
j = 0: the scan locks indices 0 and 1, writes port 2 into *dptr, keeps
the yield flag false, and unlocks in the same order. -/
theorem select_spec_witness :
    select ⟨none, false, false, none, none⟩ [⟨1, 0⟩, ⟨2, 3⟩] 0 = some
      { st := ⟨none, false, false, none, some 2⟩,
        yield := false,
        lockOrder := (List.range (1 + 1)).map (fun m => (m + 0) % 2),
        unlockOrder := (List.range (1 + 1)).map (fun m => (m + 0) % 2) } :=
  (select_spec ⟨none, false, false, none, none⟩ [⟨1, 0⟩, ⟨2, 3⟩] 0
    rfl rfl (by decide)).2.2 1 (by decide) (by decide)
    (by intro i hi; interval_cases i; decide)

/-- Claim C2: among racing senders serialized by the rendezvous lock, the
first call of msg_sent_on with a published port wins — it clears the
published set, writes the port through the task's rendezvous slot,
clears the slot, and wakes the task — and any later call (for any port)
sees the task no longer blocked on the selector, performs no write and
no wakeup, and leaves the state unchanged; moreover select's entry
assertion rejects any call while a port set is still published, so a
task has at most one active select. -/
theorem msg_sent_on_race (st : SelState) (ps : List Nat) (p : Nat)
    (hb : st.blockedOnSel = true) (hsel : st.selPorts = some ps)
    (hp : p ∈ ps) :
    ((msg_sent_on st p).wrote = true ∧ (msg_sent_on st p).woke = true ∧
      (msg_sent_on st p).st.selPorts = none ∧
      (msg_sent_on st p).st.dptrCell = some p ∧
      (msg_sent_on st p).st.rendezvousSet = false ∧
      (msg_sent_on st p).st.blockedOnSel = false) ∧
    (∀ q, (msg_sent_on (msg_sent_on st p).st q).wrote = false ∧
      (msg_sent_on (msg_sent_on st p).st q).woke = false ∧
      (msg_sent_on (msg_sent_on st p).st q).st = (msg_sent_on st p).st) ∧
    (∀ (st2 : SelState) (ports : List SelPort) (j : Nat),
      st2.selPorts ≠ none → select st2 ports j = none) := by
  have hfirst : msg_sent_on st p =
      { st := { st with
                selPorts := none,
                dptrCell := some p,
                rendezvousSet := false,
                blockedOnSel := false,
                blockReason := none },
        wrote := true, woke := true } := by
    simp [msg_sent_on, hb, hsel, hp]
  refine ⟨?_, ?_, ?_⟩
  · rw [hfirst]
    exact ⟨rfl, rfl, rfl, rfl, rfl, rfl⟩
  · intro q
    rw [hfirst]
    simp [msg_sent_on]
  · intro st2 ports j hne
    unfold select
    rw [if_neg (fun hc => hne hc.1)]

/-- Witness for msg_sent_on_race: a task selecting on ports 1 and 2; a
sender on port 2 wins the rendezvous and a second sender on port 1 then
does nothing. -/
theorem msg_sent_on_race_witness :
    ((msg_sent_on ⟨some [1, 2], true, true,
        some "waiting for select rendezvous", none⟩ 2).wrote = true ∧
      (msg_sent_on ⟨some [1, 2], true, true,
        some "waiting for select rendezvous", none⟩ 2).woke = true ∧
      (msg_sent_on ⟨some [1, 2], true, true,
        some "waiting for select rendezvous", none⟩ 2).st.selPorts = none ∧
      (msg_sent_on ⟨some [1, 2], true, true,
        some "waiting for select rendezvous", none⟩ 2).st.dptrCell = some 2 ∧
      (msg_sent_on ⟨some [1, 2], true, true,
        some "waiting for select rendezvous", none⟩ 2).st.rendezvousSet = false ∧
      (msg_sent_on ⟨some [1, 2], true, true,
        some "waiting for select rendezvous", none⟩ 2).st.blockedOnSel = false) ∧
    (∀ q, (msg_sent_on (msg_sent_on ⟨some [1, 2], true, true,
        some "waiting for select rendezvous", none⟩ 2).st q).wrote = false ∧
      (msg_sent_on (msg_sent_on ⟨some [1, 2], true, true,
        some "waiting for select rendezvous", none⟩ 2).st q).woke = false ∧
      (msg_sent_on (msg_sent_on ⟨some [1, 2], true, true,
        some "waiting for select rendezvous", none⟩ 2).st q).st =
        (msg_sent_on ⟨some [1, 2], true, true,
          some "waiting for select rendezvous", none⟩ 2).st) ∧
    (∀ (st2 : SelState) (ports : List SelPort) (j : Nat),
      st2.selPorts ≠ none → select st2 ports j = none) :=
  msg_sent_on_race ⟨some [1, 2], true, true,
    some "waiting for select rendezvous", none⟩ [1, 2] 2 rfl rfl
    (by decide)

/-! ## Theorems for the scheduling loop and reaping (C4) -/

/-- Helper: InvCore only depends on the lists up to permutation, the
seen set, and the events. -/
theorem InvCore_transport (s s1 : LoopState)
    (hseen : s1.seen = s.seen) (hevs : s1.evs = s.evs)
    (hcnt : ∀ t, (allLists s1.w).count t = (allLists s.w).count t)
    (h : InvCore s) : InvCore s1 := by
  obtain ⟨hnd, hsub, hsnd, h0, h1, h2⟩ := h
  have hperm : (allLists s1.w).Perm (allLists s.w) :=
    List.perm_iff_count.2 hcnt
  have hmem : ∀ t, t ∈ allLists s1.w ↔ t ∈ allLists s.w :=
    fun t => hperm.mem_iff
  refine ⟨hperm.nodup_iff.2 hnd, ?_, ?_, ?_, ?_, ?_⟩
  · intro t ht
    rw [hseen]
    exact hsub t ((hmem t).1 ht)
  · rw [hseen]
    exact hsnd
  · intro t ht
    rw [hevs]
    exact h0 t ((hmem t).1 ht)
  · intro t ht hnot
    rw [hevs]
    rw [hseen] at ht
    exact h1 t ht (fun hc => hnot ((hmem t).2 hc))
  · intro t ht
    rw [hevs]
    rw [hseen] at ht
    exact h2 t ht

/-- Helper: a valid interleaved transition preserves the loop invariant,
leaves the events alone, and never removes a runnable task or a created
id. -/
theorem applyMid_ok (s s1 : LoopState) (e : MidEffect)
    (hInv : LoopInv s) (h : applyMid s e = some s1) :
    LoopInv s1 ∧ s1.evs = s.evs ∧
    (∀ x, x ∈ s.w.running → x ∈ s1.w.running) ∧
    (∀ x, x ∈ s.seen → x ∈ s1.seen) := by
  obtain ⟨⟨hnd, hsub, hsnd, h0, h1, h2⟩, hdead⟩ := hInv
  cases e with
  | spawn t =>
    by_cases hs : t ∈ s.seen
    · simp [applyMid, hs] at h
    · simp only [applyMid, hs, if_false, ite_false,
        Option.some.injEq] at h
      subst h
      have htl : t ∉ allLists s.w := fun hc => hs (hsub t hc)
      have hperm : (allLists { s with
          w := { s.w with newborn := s.w.newborn ++ [t] },
          seen := s.seen ++ [t] }.w).Perm (t :: allLists s.w) := by
        refine List.perm_iff_count.2 ?_
        intro x
        by_cases hx : x = t <;>
          simp [allLists, List.count_append, List.count_cons,
            beq_iff_eq, hx] <;> omega
      refine ⟨⟨⟨?_, ?_, ?_, ?_, ?_, ?_⟩, hdead⟩, rfl, ?_, ?_⟩
      · refine hperm.nodup_iff.2 ?_
        exact List.nodup_cons.2 ⟨htl, hnd⟩
      · intro x hx
        rcases List.mem_cons.1 (hperm.mem_iff.1 hx) with hx2 | hx2
        · subst hx2
          simp
        · simp only [List.mem_append]
          exact Or.inl (hsub x hx2)
      · refine List.nodup_append.2 ⟨hsnd, List.nodup_singleton t, ?_⟩
        intro x hx hx2
        rw [List.mem_singleton] at hx2
        subst hx2
        exact hs hx
      · intro x hx
        rcases List.mem_cons.1 (hperm.mem_iff.1 hx) with hx2 | hx2
        · subst hx2
          exact h2 x hs
        · exact h0 x hx2
      · intro x hx hnot
        rcases List.mem_append.1 hx with hx2 | hx2
        · refine h1 x hx2 (fun hc => hnot (hperm.mem_iff.2 ?_))
          exact List.mem_cons_of_mem t hc
        · rw [List.mem_singleton] at hx2
          subst hx2
          exact absurd (hperm.mem_iff.2 (List.mem_cons_self x _)) hnot
      · intro x hx
        refine h2 x (fun hc => hx ?_)
        simp only [List.mem_append]
        exact Or.inl hc
      · intro x hx
        exact hx
      · intro x hx
        simp only [List.mem_append]
        exact Or.inl hx
  | startT t =>
    by_cases hs : t ∈ s.w.newborn
    · rw [applyMid, if_pos hs] at h
      cases h
      have hpos : 0 < s.w.newborn.count t := List.count_pos_iff.2 hs
      refine ⟨⟨?_, hdead⟩, rfl, ?_, ?_⟩
      · refine InvCore_transport s _ rfl rfl ?_ ⟨hnd, hsub, hsnd, h0, h1, h2⟩
        intro x
        by_cases hx : x = t <;>
          simp [allLists, List.count_append, List.count_erase,
            beq_iff_eq, hx] <;> omega
      · intro x hx
        simp only [List.mem_append]
        exact Or.inl hx
      · intro x hx
        exact hx
    · rw [applyMid, if_neg hs] at h
      cases h
  | wakeup t =>
    by_cases hs : t ∈ s.w.blocked
    · rw [applyMid, if_pos hs] at h
      cases h
      have hpos : 0 < s.w.blocked.count t := List.count_pos_iff.2 hs
      refine ⟨⟨?_, hdead⟩, rfl, ?_, ?_⟩
      · refine InvCore_transport s _ rfl rfl ?_ ⟨hnd, hsub, hsnd, h0, h1, h2⟩
        intro x
        by_cases hx : x = t <;>
          simp [allLists, List.count_append, List.count_erase,
            beq_iff_eq, hx] <;> omega
      · intro x hx
        simp only [List.mem_append]
        exact Or.inl hx
      · intro x hx
        exact hx
    · rw [applyMid, if_neg hs] at h
      cases h

/-- Helper: a valid sequence of interleaved transitions preserves the
loop invariant. -/
theorem applyMids_ok :
    ∀ (effs : List MidEffect) (s s1 : LoopState), LoopInv s →
      applyMids s effs = some s1 →
      LoopInv s1 ∧ s1.evs = s.evs ∧
      (∀ x, x ∈ s.w.running → x ∈ s1.w.running) ∧
      (∀ x, x ∈ s.seen → x ∈ s1.seen) := by
  intro effs
  induction effs with
  | nil =>
    intro s s1 hInv h
    cases h
    exact ⟨hInv, rfl, fun x hx => hx, fun x hx => hx⟩
  | cons e rest ih =>
    intro s s1 hInv h
    cases hm : applyMid s e with
    | none => rw [applyMids, hm] at h; cases h
    | some smid =>
      rw [applyMids, hm] at h
      obtain ⟨hInvM, hevsM, hrunM, hseenM⟩ := applyMid_ok s smid e hInv hm
      obtain ⟨hInv1, hevs1, hrun1, hseen1⟩ := ih smid s1 hInvM h
      exact ⟨hInv1, hevs1.trans hevsM, fun x hx => hrun1 x (hrunM x hx),
        fun x hx => hseen1 x (hseenM x hx)⟩

/-- Helper: from an invariant state, a turn whose task-level
preconditions hold always succeeds — in particular, the reap assertion
and the after-wait assertion never fail — and re-establishes the
invariant. -/
theorem runTurn_ok (s : LoopState) (turn : Turn) (hInv : LoopInv s)
    (hpre : ActPre s turn) :
    ∃ s1, runTurn s turn = some s1 ∧ LoopInv s1 := by
  cases turn with
  | wait effs =>
    obtain ⟨hrun, hmids⟩ := hpre
    cases hm : applyMids s effs with
    | none => exact absurd hm hmids
    | some s1 =>
      obtain ⟨hInv1, _, _, _⟩ := applyMids_ok effs s s1 hInv hm
      refine ⟨s1, ?_, hInv1⟩
      simp [runTurn, hrun, hm, hInv1.2]
  | act a effs ek =>
    obtain ⟨ha, hmids⟩ := hpre
    cases hm : applyMids s effs with
    | none => exact absurd hm hmids
    | some s1 =>
      obtain ⟨⟨hcore1, hdead1⟩, hevs1, hrunmono, _⟩ :=
        applyMids_ok effs s s1 hInv hm
      have ha1 : a ∈ s1.w.running := hrunmono a ha
      have hpos : 0 < s1.w.running.count a := List.count_pos_iff.2 ha1
      cases ek with
      | yieldE =>
        refine ⟨s1, ?_, ⟨hcore1, hdead1⟩⟩
        simp [runTurn, ha, hm, applyEnd, reap_dead_tasks, hdead1,
          List.append_nil]
      | blockE =>
        refine ⟨{ s1 with w := { s1.w with
            running := s1.w.running.erase a,
            blocked := s1.w.blocked ++ [a] } }, ?_, ?_, ?_⟩
        · simp [runTurn, ha, hm, applyEnd, ha1, reap_dead_tasks, hdead1,
            List.append_nil]
        · refine InvCore_transport s1 _ rfl rfl ?_ hcore1
          intro x
          by_cases hx : x = a <;>
            simp [allLists, List.count_append, List.count_erase,
              beq_iff_eq, hx] <;> omega
        · exact hdead1
      | dieE =>
        obtain ⟨hnd1, hsub1, hsnd1, h01, h11, h21⟩ := hcore1
        have haall : a ∈ allLists s1.w := by
          simp only [allLists, List.mem_append]
          tauto
        have hcnt1a : (allLists s1.w).count a = 1 :=
          List.count_eq_one_of_mem hnd1 haall
        refine ⟨{ w := { s1.w with
                           running := s1.w.running.erase a, dead := [] },
                  seen := s1.seen,
                  evs := s1.evs ++ [ReapEvent.releasedId a,
                    ReapEvent.stacksDestroyed a, ReapEvent.deref a] },
          ?_, ?_, rfl⟩
        · simp [runTurn, ha, hm, applyEnd, ha1, reap_dead_tasks, hdead1]
        · have hcnt3 : ∀ x,
              (allLists { s1.w with running := s1.w.running.erase a, dead := [] }).count x =
              (allLists s1.w).count x - (if x = a then 1 else 0) := by
            intro x
            by_cases hx : x = a <;>
              simp [allLists, hdead1, List.count_append, List.count_erase,
                beq_iff_eq, hx] <;> omega
          have hperm3 :
              ((allLists { s1.w with running := s1.w.running.erase a, dead := [] }) ++ [a]).Perm (allLists s1.w) := by
            refine List.perm_iff_count.2 ?_
            intro x
            rw [List.count_append, hcnt3 x]
            by_cases hx : x = a <;>
              simp [hx, List.count_cons, beq_iff_eq] <;> omega
          have hmem3 : ∀ x,
              x ∈ allLists { s1.w with running := s1.w.running.erase a, dead := [] } ↔ (x ∈ allLists s1.w ∧ x ≠ a) := by
            intro x
            constructor
            · intro hx
              have hposx := List.count_pos_iff.2 hx
              rw [hcnt3 x] at hposx
              by_cases hxa : x = a
              · rw [hxa, hcnt1a] at hposx
                simp at hposx
              · refine ⟨List.count_pos_iff.1 ?_, hxa⟩
                simp only [hxa, if_false] at hposx
                omega
            · intro hx
              obtain ⟨hx1, hxa⟩ := hx
              refine List.count_pos_iff.1 ?_
              rw [hcnt3 x]
              have := List.count_pos_iff.2 hx1
              simp only [hxa, if_false]
              omega
          have htrip : ∀ x : Nat,
              ([ReapEvent.releasedId a, ReapEvent.stacksDestroyed a,
                ReapEvent.deref a].count (ReapEvent.releasedId x) =
                if x = a then 1 else 0) ∧
              ([ReapEvent.releasedId a, ReapEvent.stacksDestroyed a,
                ReapEvent.deref a].count (ReapEvent.stacksDestroyed x) =
                if x = a then 1 else 0) ∧
              ([ReapEvent.releasedId a, ReapEvent.stacksDestroyed a,
                ReapEvent.deref a].count (ReapEvent.deref x) =
                if x = a then 1 else 0) := by
            intro x
            by_cases hx : x = a <;> simp [hx, List.count_cons]
          refine ⟨(hperm3.nodup_iff.2 hnd1).of_append_left, ?_, hsnd1,
            ?_, ?_, ?_⟩
          · intro x hx
            exact hsub1 x ((hmem3 x).1 hx).1
          · intro x hx
            obtain ⟨hx1, hxa⟩ := (hmem3 x).1 hx
            obtain ⟨c1, c2, c3⟩ := h01 x hx1
            obtain ⟨t1, t2, t3⟩ := htrip x
            simp [List.count_append, c1, c2, c3, t1, t2, t3, hxa]
          · intro x hxs hxnot
            by_cases hxa : x = a
            · subst hxa
              obtain ⟨c1, c2, c3⟩ := h01 x haall
              obtain ⟨t1, t2, t3⟩ := htrip x
              simp [List.count_append, c1, c2, c3, t1, t2, t3]
            · have hx1 : x ∉ allLists s1.w := fun hc =>
                hxnot ((hmem3 x).2 ⟨hc, hxa⟩)
              obtain ⟨c1, c2, c3⟩ := h11 x hxs hx1
              obtain ⟨t1, t2, t3⟩ := htrip x
              simp [List.count_append, c1, c2, c3, t1, t2, t3, hxa]
          · intro x hxs
            have hxa : x ≠ a := fun hc => hxs (hc ▸ hsub1 a haall)
            obtain ⟨c1, c2, c3⟩ := h21 x hxs
            obtain ⟨t1, t2, t3⟩ := htrip x
            simp [List.count_append, c1, c2, c3, t1, t2, t3, hxa]

/-- Helper: the loop invariant holds at loop start. -/
theorem initLoop_inv : LoopInv initLoop := by
  refine ⟨⟨?_, ?_, ?_, ?_, ?_, ?_⟩, rfl⟩ <;>
    simp [initLoop, allLists]

/-- Helper: a trace whose turns all satisfy their task-level
preconditions runs to completion (no assertion fires) and preserves the
invariant. -/
theorem runTurns_ok :
    ∀ (turns : List Turn) (s : LoopState), LoopInv s → TraceOk s turns →
      ∃ s1, runTurns s turns = some s1 ∧ LoopInv s1 := by
  intro turns
  induction turns with
  | nil =>
    intro s hInv _
    exact ⟨s, rfl, hInv⟩
  | cons t rest ih =>
    intro s hInv htr
    obtain ⟨hpre, hcont⟩ := htr
    obtain ⟨s1, hs1, hInv1⟩ := runTurn_ok s t hInv hpre
    obtain ⟨s2, hs2, hInv2⟩ := ih s1 hInv1 (hcont s1 hs1)
    refine ⟨s2, ?_, hInv2⟩
    rw [runTurns, hs1]
    exact hs2

/-- Claim C4: in every run of the scheduling loop whose task-level
transitions are valid, the reap assertion never fails — when reaping
begins the dead list holds at most one task (so the run completes) —
reaping an empty dead list does nothing while reaping the single dead
task removes it from the list and emits exactly one kernel-id release,
one stack destruction and one refcount decrement for it; hence at loop
exit, when all four lists are empty, every task ever created on the
worker has been released exactly once and had its stacks freed exactly
once. -/
theorem reap_dead_tasks_spec (turns : List Turn)
    (htr : TraceOk initLoop turns) :
    (∃ s1, runTurns initLoop turns = some s1 ∧ LoopInv s1 ∧
      (allLists s1.w = [] →
        ∀ t ∈ s1.seen,
          s1.evs.count (ReapEvent.releasedId t) = 1 ∧
          s1.evs.count (ReapEvent.stacksDestroyed t) = 1 ∧
          s1.evs.count (ReapEvent.deref t) = 1)) ∧
    (∀ w : LoopWorker, w.dead = [] → reap_dead_tasks w = some (w, [])) ∧
    (∀ (w : LoopWorker) (t : Nat), w.dead = [t] →
      reap_dead_tasks w = some ({ w with dead := [] },
        [ReapEvent.releasedId t, ReapEvent.stacksDestroyed t,
          ReapEvent.deref t])) ∧
    (∀ (s : LoopState) (a : Nat) (effs : List MidEffect) (ek : EndKind)
        (s1 s2 : LoopState), LoopInv s →
      applyMids s effs = some s1 → applyEnd a s1 ek = some s2 →
      s2.w.dead.length ≤ 1) := by
  refine ⟨?_, ?_, ?_, ?_⟩
  · obtain ⟨s1, hs1, hInv1⟩ := runTurns_ok turns initLoop initLoop_inv htr
    refine ⟨s1, hs1, hInv1, ?_⟩
    intro hempty t ht
    have hnot : t ∉ allLists s1.w := by
      rw [hempty]
      exact List.not_mem_nil t
    exact hInv1.1.2.2.2.2.1 t ht hnot
  · intro w h
    simp [reap_dead_tasks, h]
  · intro w t h
    simp [reap_dead_tasks, h]
  · intro s a effs ek s1 s2 hInv hm hend
    obtain ⟨⟨_, _, _, _, _, _⟩, _⟩ :=
      (applyMids_ok effs s s1 hInv hm).1
    have hdead1 : s1.w.dead = [] := (applyMids_ok effs s s1 hInv hm).1.2
    cases ek with
    | yieldE =>
      cases hend
      rw [hdead1]
      decide
    | blockE =>
      rw [applyEnd] at hend
      by_cases ha : a ∈ s1.w.running
      · rw [if_pos ha] at hend
        cases hend
        simp [hdead1]
      · rw [if_neg ha] at hend
        cases hend
    | dieE =>
      rw [applyEnd] at hend
      by_cases ha : a ∈ s1.w.running
      · rw [if_pos ha] at hend
        cases hend
        simp [hdead1]
      · rw [if_neg ha] at hend
        cases hend

/-- Witness for reap_dead_tasks_spec: a wait turn during which task 5 is
spawned and started, then an activation in which task 5 dies and is
reaped with its single release/destroy/deref triple. -/
theorem reap_dead_tasks_spec_witness :
    (TraceOk initLoop [Turn.wait [MidEffect.spawn 5, MidEffect.startT 5],
        Turn.act 5 [] EndKind.dieE]) ∧
    (∃ s1, runTurns initLoop [Turn.wait [MidEffect.spawn 5,
          MidEffect.startT 5], Turn.act 5 [] EndKind.dieE] = some s1 ∧
      LoopInv s1 ∧
      (allLists s1.w = [] →
        ∀ t ∈ s1.seen,
          s1.evs.count (ReapEvent.releasedId t) = 1 ∧
          s1.evs.count (ReapEvent.stacksDestroyed t) = 1 ∧
          s1.evs.count (ReapEvent.deref t) = 1)) := by
  have h1 : runTurn initLoop (Turn.wait [MidEffect.spawn 5,
      MidEffect.startT 5]) = some ⟨⟨[], [5], [], []⟩, [5], []⟩ := by
    decide
  have htr : TraceOk initLoop [Turn.wait [MidEffect.spawn 5,
      MidEffect.startT 5], Turn.act 5 [] EndKind.dieE] := by
    refine ⟨⟨rfl, by decide⟩, ?_⟩
    intro sx hx
    rw [h1] at hx
    cases hx
    refine ⟨⟨by decide, by decide⟩, ?_⟩
    intro sy _
    trivial
  exact ⟨htr, (reap_dead_tasks_spec _ htr).1⟩

end RustRt
